import Mathlib

/-!
Verification of `scrape_advanced.py`, a single-file scraping utility:
`scrape_url` shells out to `lynx` and captures stdout, `extract_data` runs
`re.findall` for a fixed table of four patterns, and `main` validates the
CLI argument and prints the extraction result as indented JSON.

The Python source is embedded shallowly:
* regular expressions become a small AST (`Regex`) together with a
  backtracking matcher whose exploration order models CPython's `re`
  engine (greedy repetition, leftmost alternative first), and `findall`
  models `re.findall`'s non-overlapping left-to-right scan;
* the `subprocess.run` call becomes an explicit environment value of type
  `Except String CompletedProcess` (either the completed process or the
  exception message raised by the invocation);
* `print` calls become lines accumulated on an explicit stdout stream.
-/

namespace Scrape

/-- Python `\w` on the ASCII range (the inputs in this development are
ASCII; CPython's default `\w` additionally accepts non-ASCII word
characters, which none of the embedded texts contain). -/
def isWordChar (c : Char) : Bool :=
  c.isAlphanum || c = '_'

/-- Python `\d` on the ASCII range. -/
def isDigitChar (c : Char) : Bool :=
  c.isDigit

/-- Python `\s` on the ASCII range. -/
def isSpaceChar (c : Char) : Bool :=
  c = ' ' || c = '\t' || c = '\n' || c = '\r' || c = '\x0b' || c = '\x0c'

/-- The character class `[\w\.-]` from the emails pattern. -/
def isWordDotDash (c : Char) : Bool :=
  isWordChar c || c = '.' || c = '-'

/-- Regular expressions as used by the program's fixed pattern table:
character classes, concatenation, prioritized alternation and greedy
star.  `?`, `+` and counted repetition are derived forms.  None of the
program's patterns use anchors, so the `re.MULTILINE` flag passed to
`re.findall` (which only changes the meaning of the anchors `^` and `$`)
has no effect on them and is not represented. -/
inductive Regex where
  | eps : Regex
  | cls (p : Char → Bool) : Regex
  | cat (a b : Regex) : Regex
  | alt (a b : Regex) : Regex
  | star (r : Regex) : Regex

/-- Greedy `r?` (prefer matching `r` over matching nothing). -/
def reOpt (r : Regex) : Regex := .alt r .eps

/-- Greedy `r+`. -/
def rePlus (r : Regex) : Regex := .cat r (.star r)

/-- A literal character. -/
def lit (c : Char) : Regex := .cls (fun d => d = c)

/-- Size of a regular expression, used to bound recursion depth. -/
def sizeR : Regex → Nat
  | .eps => 1
  | .cls _ => 1
  | .cat a b => sizeR a + sizeR b + 1
  | .alt a b => sizeR a + sizeR b + 1
  | .star r => sizeR r + 1

/-- All ways `r` can consume a prefix of `s`, listed as the remaining
suffixes, in the priority order a CPython-style backtracking engine
explores them: a class consumes exactly one character, `alt` prefers its
left branch, `star` is greedy (prefers iterating once more).  The
`filter` guard discards `star` iterations that consume nothing, as
CPython's engine refuses to loop on an empty repetition (and every
`star` body in the program's patterns consumes one character anyway).
`fuel` bounds the recursion depth: every call either shrinks the regex
(keeping the suffix) or re-enters `star` on a strictly shorter suffix,
so the depth never exceeds `sizeR r * (s.length + 1)` and the `fuel = 0`
base case is unreachable from `matchAt` below. -/
def derivs : Nat → Regex → List Char → List (List Char)
  | 0, _, _ => []
  | _ + 1, .eps, s => [s]
  | _ + 1, .cls _, [] => []
  | _ + 1, .cls p, c :: s => if p c then [s] else []
  | fuel + 1, .cat a b, s => (derivs fuel a s).flatMap (fun t => derivs fuel b t)
  | fuel + 1, .alt a b, s => derivs fuel a s ++ derivs fuel b s
  | fuel + 1, .star r, s =>
      ((derivs fuel r s).filter (fun t => t.length < s.length)).flatMap
        (fun t => derivs fuel (.star r) t) ++ [s]

/-- The number of characters the engine's preferred match of `r` consumes
at the very start of `s`, or `none` when `r` does not match there:
the head of the priority-ordered enumeration. -/
def matchAt (r : Regex) (s : List Char) : Option Nat :=
  (derivs (sizeR r * (s.length + 1)) r s).head?.map (fun t => s.length - t.length)

/-- One step of the `re.findall` scan at the current position: try a
match; on success emit it and resume (`rec`) after it (after a
zero-width match, one character further); on failure slide one character
to the right. -/
def findallStep (r : Regex) (s : List Char)
    (rec : List Char → List (List Char)) : List (List Char) :=
  match matchAt r s with
  | some n =>
    if n = 0 then
      if s.isEmpty then [[]] else [] :: rec s.tail
    else s.take n :: rec (s.drop n)
  | none =>
    if s.isEmpty then [] else rec s.tail

/-- The scan of `re.findall`, iterating `findallStep`.  `fuel` bounds
the number of scan steps; `fuel = s.length + 1` always suffices because
every step either consumes the matched characters or moves past one
character. -/
def findallAux : Nat → Regex → List Char → List (List Char)
  | 0, _, _ => []
  | fuel + 1, r, s => findallStep r s (findallAux fuel r)

/-- `re.findall(pattern, content, re.MULTILINE)` for the program's
anchor-free patterns. -/
def findall (r : Regex) (content : String) : List String :=
  (findallAux (content.data.length + 1) r content.data).map (fun cs => ⟨cs⟩)

/-- `extract_data` (src/scrape_advanced.py, lines 22-28): one
`re.findall` per entry of the pattern table, inserting the results under
the entry's key in table order.  The Python `for` loop inserts exactly
one key per entry, in iteration order, which is the `dict`'s insertion
order; an association list in the same order models the result `dict`. -/
def extract_data (content : String) (patterns : List (String × Regex)) :
    List (String × List String) :=
  patterns.map (fun kp => (kp.1, findall kp.2 content))

/-- `[\w\.-]+@[\w\.-]+\.\w+` — the emails pattern. -/
def emailsRe : Regex :=
  .cat (rePlus (.cls isWordDotDash))
    (.cat (lit '@')
      (.cat (rePlus (.cls isWordDotDash))
        (.cat (lit '.') (rePlus (.cls isWordChar)))))

/-- `\$\d+(?:\.\d{2})?` — the prices pattern. -/
def pricesRe : Regex :=
  .cat (lit '$')
    (.cat (rePlus (.cls isDigitChar))
      (reOpt (.cat (lit '.') (.cat (.cls isDigitChar) (.cls isDigitChar)))))

/-- `\d{1,2}` — one or two digits, greedy. -/
def digit12 : Regex := .cat (.cls isDigitChar) (reOpt (.cls isDigitChar))

/-- `\d{3}`. -/
def digit3 : Regex :=
  .cat (.cls isDigitChar) (.cat (.cls isDigitChar) (.cls isDigitChar))

/-- `\d{4}`. -/
def digit4 : Regex := .cat (.cls isDigitChar) digit3

/-- `\d{1,2}/\d{1,2}/\d{4}` — the dates pattern. -/
def datesRe : Regex :=
  .cat digit12 (.cat (lit '/') (.cat digit12 (.cat (lit '/') digit4)))

/-- `\(\d{3}\)\s*\d{3}-\d{4}` — the phones pattern. -/
def phonesRe : Regex :=
  .cat (lit '(')
    (.cat digit3
      (.cat (lit ')')
        (.cat (.star (.cls isSpaceChar))
          (.cat digit3 (.cat (lit '-') digit4)))))

/-- The fixed pattern table of `main` (src/scrape_advanced.py, lines
38-43), in its declared order. -/
def patterns : List (String × Regex) :=
  [("emails", emailsRe), ("prices", pricesRe), ("dates", datesRe), ("phones", phonesRe)]

/-- The value `subprocess.run` returns when the invocation completes
(the program reads only `stdout`; the remaining fields are carried for
faithfulness to `capture_output=True, text=True`). -/
structure CompletedProcess where
  stdout : String
  stderr : String
  returncode : Int

/-- The behaviour of the external `lynx` invocation during one run:
either `subprocess.run` returns a completed process, or the invocation
raises an exception rendered as its message string (`FileNotFoundError`
when `lynx` is absent, and so on). -/
abbrev RunOutcome := Except String CompletedProcess

/-- `scrape_url` (src/scrape_advanced.py, lines 8-20).  The `try` block
runs `subprocess.run` and returns `result.stdout`; the `except` handler
catches every exception, prints the f-string
`"Error scraping {url}: {e}"` and returns `""`.  The returned pair is
(lines printed to stdout, returned string); the plain (non-`Except`)
return type is the absence of exception propagation. -/
def scrape_url (url : String) (run : RunOutcome) : List String × String :=
  match run with
  | .ok result => ([], result.stdout)
  | .error e => (["Error scraping " ++ url ++ ": " ++ e], "")

/-! ### The Reporter: `json.dumps(data, indent=2)`

`main` serializes the extraction result with `json.dumps(data, indent=2)`
(default `ensure_ascii=True`), whose output for a dict of lists of
strings is: keys on their own lines at indent 2, array elements at
indent 4, item separator `","` plus newline, key separator `": "`,
`"[]"`/`"\x7b\x7d"` for empty collections, and every string escaped with
the standard JSON escapes, non-ASCII characters as `\uXXXX` (astral
characters as a surrogate pair). -/

/-- Lowercase hexadecimal digit, as produced by CPython's `\uXXXX`
escapes. -/
def hexDigitChar (n : Nat) : Char :=
  if n < 10 then Char.ofNat (48 + n) else Char.ofNat (87 + n)

/-- Four-digit lowercase hexadecimal rendering of `n < 0x10000`. -/
def hex4 (n : Nat) : List Char :=
  [hexDigitChar (n / 4096 % 16), hexDigitChar (n / 256 % 16),
   hexDigitChar (n / 16 % 16), hexDigitChar (n % 16)]

/-- `json.encoder`'s per-character escaping with `ensure_ascii=True`:
backslash, quote and the five short control escapes by table; any other
character outside the printable ASCII range `0x20`-`0x7e` as `\uXXXX`,
astral code points as a UTF-16 surrogate pair; printable ASCII verbatim. -/
def escChar (c : Char) : List Char :=
  if c = '\\' then ['\\', '\\']
  else if c = '"' then ['\\', '"']
  else if c = '\x08' then ['\\', 'b']
  else if c = '\x0c' then ['\\', 'f']
  else if c = '\n' then ['\\', 'n']
  else if c = '\r' then ['\\', 'r']
  else if c = '\t' then ['\\', 't']
  else if c.toNat < 0x20 || 0x7e < c.toNat then
    if c.toNat < 0x10000 then
      '\\' :: 'u' :: hex4 c.toNat
    else
      '\\' :: 'u' :: hex4 (0xd800 + (c.toNat - 0x10000) / 0x400) ++
        '\\' :: 'u' :: hex4 (0xdc00 + (c.toNat - 0x10000) % 0x400)
  else [c]

/-- The escaped body of a JSON string literal. -/
def escString (s : String) : List Char :=
  s.data.flatMap escChar

/-- A JSON string literal: quote, escaped body, quote. -/
def renderString (s : String) : List Char :=
  '"' :: escString s ++ ['"']

/-- One array element on its own line at indent 4. -/
def renderItem (s : String) : List Char :=
  ' ' :: ' ' :: ' ' :: ' ' :: renderString s

/-- A JSON array of strings at indent 2, as `json.dumps(·, indent=2)`
lays it out. -/
def renderArray : List String → List Char
  | [] => ['[', ']']
  | s :: rest =>
    '[' :: '\n' :: renderItem s ++
      rest.flatMap (fun t => ',' :: '\n' :: renderItem t) ++
        ['\n', ' ', ' ', ']']

/-- One `"key": [...]` member on its own line at indent 2. -/
def renderPair (kv : String × List String) : List Char :=
  ' ' :: ' ' :: renderString kv.1 ++ ':' :: ' ' :: renderArray kv.2

/-- `json.dumps(d, indent=2)` for the result shape, as a character list. -/
def dumpsChars : List (String × List String) → List Char
  | [] => ['\x7b', '\x7d']
  | kv :: rest =>
    '\x7b' :: '\n' :: renderPair kv ++
      rest.flatMap (fun t => ',' :: '\n' :: renderPair t) ++
        ['\n', '\x7d']

/-- `json.dumps(d, indent=2)`. -/
def dumps (d : List (String × List String)) : String :=
  ⟨dumpsChars d⟩

/-! ### A JSON reader for the Reporter's output

A standard recursive-descent parser for the JSON fragment the Reporter
emits — an object whose values are arrays of strings — with the usual
insignificant-whitespace and string-escape rules of JSON.  It is used to
state the round-trip property of the Reporter. -/

/-- The insignificant whitespace characters of JSON. -/
def isJsonWs (c : Char) : Bool :=
  c = ' ' || c = '\t' || c = '\n' || c = '\r'

/-- Drop leading insignificant whitespace. -/
def skipWs : List Char → List Char
  | [] => []
  | c :: l => if isJsonWs c then skipWs l else c :: l

/-- Value of one hexadecimal digit. -/
def hexVal (c : Char) : Option Nat :=
  if '0' ≤ c ∧ c ≤ '9' then some (c.toNat - 48)
  else if 'a' ≤ c ∧ c ≤ 'f' then some (c.toNat - 87)
  else if 'A' ≤ c ∧ c ≤ 'F' then some (c.toNat - 55)
  else none

/-- Value of a four-digit hexadecimal escape payload. -/
def decode4 (a b c d : Char) : Option Nat :=
  match hexVal a, hexVal b, hexVal c, hexVal d with
  | some x, some y, some z, some w => some (((x * 16 + y) * 16 + z) * 16 + w)
  | _, _, _, _ => none

/-- Prepend a decoded character to a string-body parse. -/
def pushChar (c : Char) :
    Option (List Char × List Char) → Option (List Char × List Char)
  | some (s, r) => some (c :: s, r)
  | none => none

/-- Decode one escape sequence, positioned just after a backslash: the
standard short escapes, or `\uXXXX`; a `\uXXXX` escape carrying a high
surrogate must be followed by a low-surrogate escape, and the pair
decodes to one astral character.  Returns the decoded character and the
rest of the input. -/
def parseEscape : List Char → Option (Char × List Char)
  | [] => none
  | e :: rest =>
    if e = '"' then some ('"', rest)
    else if e = '\\' then some ('\\', rest)
    else if e = '/' then some ('/', rest)
    else if e = 'b' then some ('\x08', rest)
    else if e = 'f' then some ('\x0c', rest)
    else if e = 'n' then some ('\n', rest)
    else if e = 'r' then some ('\r', rest)
    else if e = 't' then some ('\t', rest)
    else if e = 'u' then
      match rest with
      | h1 :: h2 :: h3 :: h4 :: rest2 =>
        match decode4 h1 h2 h3 h4 with
        | none => none
        | some n =>
          if 0xd800 ≤ n ∧ n ≤ 0xdbff then
            match rest2 with
            | b1 :: b2 :: g1 :: g2 :: g3 :: g4 :: rest3 =>
              if b1 = '\\' ∧ b2 = 'u' then
                match decode4 g1 g2 g3 g4 with
                | none => none
                | some m =>
                  if 0xdc00 ≤ m ∧ m ≤ 0xdfff then
                    some (Char.ofNat (0x10000 + (n - 0xd800) * 0x400 + (m - 0xdc00)), rest3)
                  else none
              else none
            | _ => none
          else if 0xdc00 ≤ n ∧ n ≤ 0xdfff then none
          else some (Char.ofNat n, rest2)
      | _ => none
    else none

/-- Parse the body of a JSON string literal (the opening quote already
consumed) up to and including the closing quote.  `fuel` bounds the
number of decoded characters; since every decoded character consumes at
least one input character, the input length suffices as fuel. -/
def parseStringBody : Nat → List Char → Option (List Char × List Char)
  | 0, _ => none
  | fuel + 1, l =>
    match l with
    | [] => none
    | c :: rest =>
      if c = '"' then some ([], rest)
      else if c = '\\' then
        match parseEscape rest with
        | some (d, rest2) => pushChar d (parseStringBody fuel rest2)
        | none => none
      else if c.toNat < 0x20 then none
      else pushChar c (parseStringBody fuel rest)

/-- Parse a JSON string literal starting at the opening quote. -/
def parseStr (l : List Char) : Option (String × List Char) :=
  match l with
  | [] => none
  | c :: rest =>
    if c = '"' then (parseStringBody (rest.length + 1) rest).map (fun p => (⟨p.1⟩, p.2))
    else none

/-- Parse the continuation of an array of strings, positioned after an
element: either `]` or `,` followed by the next element.  `fuel` bounds
the number of remaining elements (each consumes at least one character,
so the whole input length suffices as fuel). -/
def parseArrayTail : Nat → List Char → Option (List String × List Char)
  | 0, _ => none
  | fuel + 1, l =>
    match skipWs l with
    | [] => none
    | c :: r =>
      if c = ']' then some ([], r)
      else if c = ',' then
        match parseStr (skipWs r) with
        | some (s, r2) => (parseArrayTail fuel r2).map (fun p => (s :: p.1, p.2))
        | none => none
      else none

/-- Parse a JSON array of strings. -/
def parseArray (fuel : Nat) (l : List Char) : Option (List String × List Char) :=
  match skipWs l with
  | [] => none
  | c :: r =>
    if c = '[' then
      match skipWs r with
      | [] => none
      | c2 :: r2 =>
        if c2 = ']' then some ([], r2)
        else
          match parseStr (c2 :: r2) with
          | some (s, r3) => (parseArrayTail fuel r3).map (fun p => (s :: p.1, p.2))
          | none => none
    else none

/-- Parse one `"key": [...]` member. -/
def parsePair (fuel : Nat) (l : List Char) :
    Option ((String × List String) × List Char) :=
  match parseStr (skipWs l) with
  | some (k, r) =>
    match skipWs r with
    | [] => none
    | c :: r2 =>
      if c = ':' then (parseArray fuel r2).map (fun p => ((k, p.1), p.2))
      else none
  | none => none

/-- Parse the continuation of an object, positioned after a member. -/
def parsePairsTail : Nat → List Char → Option (List (String × List String) × List Char)
  | 0, _ => none
  | fuel + 1, l =>
    match skipWs l with
    | [] => none
    | c :: r =>
      if c = '\x7d' then some ([], r)
      else if c = ',' then
        match parsePair fuel r with
        | some (kv, r2) => (parsePairsTail fuel r2).map (fun p => (kv :: p.1, p.2))
        | none => none
      else none

/-- Parse a JSON object whose values are arrays of strings, returned as
an association list in the order the members appear. -/
def parseObj (fuel : Nat) (l : List Char) :
    Option (List (String × List String) × List Char) :=
  match skipWs l with
  | [] => none
  | c :: r =>
    if c = '\x7b' then
      match skipWs r with
      | [] => none
      | c2 :: r2 =>
        if c2 = '\x7d' then some ([], r2)
        else
          match parsePair fuel (c2 :: r2) with
          | some (kv, r3) => (parsePairsTail fuel r3).map (fun p => (kv :: p.1, p.2))
          | none => none
    else none

/-- Parse a complete JSON document of the Reporter's shape, requiring
that nothing but whitespace follows the object. -/
def parseJson (s : String) : Option (List (String × List String)) :=
  match parseObj (s.data.length + 1) s.data with
  | some (d, rest) => if skipWs rest = [] then some d else none
  | none => none

/-! ### The entry point -/

/-- The usage message of `main`. -/
def usageMsg : String := "Usage: python3 scrape_advanced.py <url>"

/-- Observable outcome of one process run: the exit status, the lines
written to standard output and to standard error (every `print` in the
program writes to standard output; nothing writes to standard error),
and whether the fetch/extract/report pipeline ran. -/
structure MainResult where
  exitCode : Nat
  stdoutLines : List String
  stderrLines : List String
  fetchRan : Bool
deriving DecidableEq, Repr

/-- `main` (src/scrape_advanced.py, lines 30-52).  `argv` is Python's
`sys.argv` (the script name followed by the arguments); `len(sys.argv) <
2` — no positional argument — prints the usage message and exits with
status 1 before any fetch, extract or report step.  Otherwise the
pipeline runs on `sys.argv[1]` and the process falls off the end of
`main`, exiting with status 0. -/
def main (argv : List String) (run : RunOutcome) : MainResult :=
  match argv with
  | _ :: url :: _ =>
    let fetched := scrape_url url run
    let data := extract_data fetched.2 patterns
    { exitCode := 0
      stdoutLines := fetched.1 ++ [dumps data]
      stderrLines := []
      fetchRan := true }
  | _ =>
    { exitCode := 1
      stdoutLines := [usageMsg]
      stderrLines := []
      fetchRan := false }

/-! ### The scan structure of `findall` -/

/-- `MatchesSeq ms s`: the blocks `ms` occur in `s` in exactly this
order, each as a contiguous run of characters of `s`, pairwise
non-overlapping, with only skipped characters between them.  This is
the shape of an `re.findall`-style left-to-right scan result. -/
inductive MatchesSeq : List (List Char) → List Char → Prop
  | nil (s : List Char) : MatchesSeq [] s
  | skip {ms s} (c : Char) (h : MatchesSeq ms s) : MatchesSeq ms (c :: s)
  | here {ms s} (m : List Char) (h : MatchesSeq ms s) : MatchesSeq (m :: ms) (m ++ s)

theorem findallAux_matchesSeq (fuel : Nat) (r : Regex) :
    ∀ s, MatchesSeq (findallAux fuel r s) s := by
  induction fuel with
  | zero => intro s; exact .nil s
  | succ fuel ih =>
    intro s
    rw [findallAux, findallStep]
    cases hm : matchAt r s with
    | none =>
      simp only
      cases s with
      | nil => exact .nil []
      | cons c t => exact .skip c (ih t)
    | some n =>
      simp only
      by_cases hn : n = 0
      · subst hn
        simp only [if_pos rfl]
        cases s with
        | nil => exact .here [] (.nil [])
        | cons c t => exact .here [] (.skip c (ih t))
      · simp only [if_neg hn]
        have h := MatchesSeq.here (s.take n) (ih (s.drop n))
        rwa [List.take_append_drop] at h

/-! ### Round trip of the Reporter's JSON -/

theorem skipWs_space (l : List Char) : skipWs (' ' :: l) = skipWs l := rfl

theorem skipWs_newline (l : List Char) : skipWs ('\n' :: l) = skipWs l := rfl

theorem skipWs_not_ws {c : Char} (h : isJsonWs c = false) (l : List Char) :
    skipWs (c :: l) = c :: l := by
  simp [skipWs, h]

/-- The codomain of `Char.toNat`, in `Nat` form: a Unicode scalar value,
never a UTF-16 surrogate. -/
theorem char_toNat_valid (c : Char) :
    c.toNat < 0xd800 ∨ (0xdfff < c.toNat ∧ c.toNat < 0x110000) := by
  rcases c.valid with h | ⟨h1, h2⟩
  · exact Or.inl h
  · exact Or.inr ⟨h1, h2⟩

theorem hexVal_hexDigitChar : ∀ d < 16, hexVal (hexDigitChar d) = some d := by
  decide

theorem decode4_hex4 (n : Nat) (h : n < 0x10000) :
    decode4 (hexDigitChar (n / 4096 % 16)) (hexDigitChar (n / 256 % 16))
      (hexDigitChar (n / 16 % 16)) (hexDigitChar (n % 16)) = some n := by
  rw [decode4, hexVal_hexDigitChar _ (by omega), hexVal_hexDigitChar _ (by omega),
    hexVal_hexDigitChar _ (by omega), hexVal_hexDigitChar _ (by omega)]
  simp only [Option.some.injEq]
  omega

/-- Unfolding lemma: `parseEscape` after `\u`, with the four hex digits
and the rest of the input exposed. -/
theorem parseEscape_u (a b c d : Char) (rest : List Char) :
    parseEscape ('u' :: a :: b :: c :: d :: rest) =
      match decode4 a b c d with
      | none => none
      | some n =>
        if 0xd800 ≤ n ∧ n ≤ 0xdbff then
          match rest with
          | b1 :: b2 :: g1 :: g2 :: g3 :: g4 :: rest3 =>
            if b1 = '\\' ∧ b2 = 'u' then
              match decode4 g1 g2 g3 g4 with
              | none => none
              | some m =>
                if 0xdc00 ≤ m ∧ m ≤ 0xdfff then
                  some (Char.ofNat (0x10000 + (n - 0xd800) * 0x400 + (m - 0xdc00)), rest3)
                else none
            else none
          | _ => none
        else if 0xdc00 ≤ n ∧ n ≤ 0xdfff then none
        else some (Char.ofNat n, rest) := rfl

/-- Classification of `escChar`: a character is rendered either verbatim
(printable ASCII other than quote and backslash) or as a backslash
escape that `parseEscape` decodes back to the same character. -/
theorem escChar_spec (c : Char) :
    (escChar c = [c] ∧ c ≠ '"' ∧ c ≠ '\\' ∧ ¬c.toNat < 0x20) ∨
    (∃ e, escChar c = '\\' :: e ∧ ∀ t, parseEscape (e ++ t) = some (c, t)) := by
  by_cases h1 : c = '\\'
  · subst h1; exact Or.inr ⟨['\\'], rfl, fun t => rfl⟩
  by_cases h2 : c = '"'
  · subst h2; exact Or.inr ⟨['"'], rfl, fun t => rfl⟩
  by_cases h3 : c = '\x08'
  · subst h3; exact Or.inr ⟨['b'], rfl, fun t => rfl⟩
  by_cases h4 : c = '\x0c'
  · subst h4; exact Or.inr ⟨['f'], rfl, fun t => rfl⟩
  by_cases h5 : c = '\n'
  · subst h5; exact Or.inr ⟨['n'], rfl, fun t => rfl⟩
  by_cases h6 : c = '\r'
  · subst h6; exact Or.inr ⟨['r'], rfl, fun t => rfl⟩
  by_cases h7 : c = '\t'
  · subst h7; exact Or.inr ⟨['t'], rfl, fun t => rfl⟩
  by_cases h8 : c.toNat < 0x20 || 0x7e < c.toNat
  · right
    rw [escChar, if_neg h1, if_neg h2, if_neg h3, if_neg h4, if_neg h5, if_neg h6,
      if_neg h7, if_pos h8]
    have hv := char_toNat_valid c
    by_cases h9 : c.toNat < 0x10000
    · rw [if_pos h9]
      refine ⟨'u' :: hex4 c.toNat, rfl, fun t => ?_⟩
      simp only [hex4, List.cons_append, List.nil_append]
      rw [parseEscape_u, decode4_hex4 c.toNat h9]
      simp only
      rw [if_neg (by omega), if_neg (by omega), Char.ofNat_toNat]
    · rw [if_neg h9]
      have hlo4 : (c.toNat - 0x10000) % 0x400 < 0x400 :=
        Nat.mod_lt _ (by omega)
      have hhi : 0xd800 + (c.toNat - 0x10000) / 0x400 < 0x10000 := by omega
      have hlo : 0xdc00 + (c.toNat - 0x10000) % 0x400 < 0x10000 := by omega
      refine ⟨'u' :: hex4 (0xd800 + (c.toNat - 0x10000) / 0x400) ++
        '\\' :: 'u' :: hex4 (0xdc00 + (c.toNat - 0x10000) % 0x400), rfl, fun t => ?_⟩
      simp only [hex4, List.cons_append, List.nil_append, List.append_assoc]
      rw [parseEscape_u, decode4_hex4 _ hhi]
      simp only
      rw [if_pos (by omega : 0xd800 ≤ 0xd800 + (c.toNat - 0x10000) / 0x400 ∧
        0xd800 + (c.toNat - 0x10000) / 0x400 ≤ 0xdbff)]
      rw [if_pos ⟨trivial, trivial⟩]
      rw [decode4_hex4 _ hlo]
      simp only
      rw [if_pos (by omega : 0xdc00 ≤ 0xdc00 + (c.toNat - 0x10000) % 0x400 ∧
        0xdc00 + (c.toNat - 0x10000) % 0x400 ≤ 0xdfff)]
      have harg : 0x10000 + (0xd800 + (c.toNat - 0x10000) / 0x400 - 0xd800) * 0x400 +
          (0xdc00 + (c.toNat - 0x10000) % 0x400 - 0xdc00) = c.toNat := by omega
      rw [harg, Char.ofNat_toNat]
  · left
    rw [escChar, if_neg h1, if_neg h2, if_neg h3, if_neg h4, if_neg h5, if_neg h6,
      if_neg h7, if_neg h8]
    refine ⟨rfl, h2, h1, ?_⟩
    simp only [Bool.or_eq_true, decide_eq_true_eq, not_or, not_lt] at h8
    omega

/-- Decoding inverts escaping, one character at a time. -/
theorem parseStringBody_escChar (fuel : Nat) (c : Char) (t : List Char) :
    parseStringBody (fuel + 1) (escChar c ++ t) =
      pushChar c (parseStringBody fuel t) := by
  rcases escChar_spec c with ⟨he, hq, hb, hc⟩ | ⟨e, he, hp⟩
  · rw [he, List.singleton_append, parseStringBody.eq_def]
    simp [hq, hb, hc]
  · rw [he, List.cons_append, parseStringBody.eq_def]
    simp [hp t]

/-- Decoding inverts escaping for a whole string body. -/
theorem parseStringBody_escString (l : List Char) :
    ∀ fuel rest, l.length < fuel →
      parseStringBody fuel (l.flatMap escChar ++ '"' :: rest) = some (l, rest) := by
  induction l with
  | nil =>
    intro fuel rest h
    obtain ⟨f, rfl⟩ : ∃ f, fuel = f + 1 := ⟨fuel - 1, by omega⟩
    simp only [List.flatMap_nil, List.nil_append]
    rw [parseStringBody.eq_def]
    simp
  | cons c l ih =>
    intro fuel rest h
    obtain ⟨f, rfl⟩ : ∃ f, fuel = f + 1 := ⟨fuel - 1, by omega⟩
    simp only [List.flatMap_cons, List.append_assoc]
    rw [parseStringBody_escChar,
      ih f rest (by simp only [List.length_cons] at h; omega)]
    rfl

/-- Escaping never shortens a string. -/
theorem le_length_flatMap_escChar (l : List Char) :
    l.length ≤ (l.flatMap escChar).length := by
  induction l with
  | nil => simp
  | cons c l ih =>
    have h1 : 1 ≤ (escChar c).length := by
      rcases escChar_spec c with ⟨he, _⟩ | ⟨e, he, _⟩ <;> simp [he]
    simp only [List.flatMap_cons, List.length_append, List.length_cons]
    omega

/-- A serialized string literal parses back, in raw (unfolded) form. -/
theorem parseStr_escString (s : String) (rest : List Char) :
    parseStr ('"' :: (s.data.flatMap escChar ++ '"' :: rest)) = some (s, rest) := by
  rw [parseStr]
  rw [if_pos rfl]
  rw [parseStringBody_escString s.data _ rest ?hfuel]
  case hfuel =>
    have := le_length_flatMap_escChar s.data
    simp only [List.length_append, List.length_cons]
    omega
  rfl

/-- A serialized string literal parses back. -/
theorem parseStr_renderString (s : String) (rest : List Char) :
    parseStr (renderString s ++ rest) = some (s, rest) := by
  rw [renderString, escString]
  simp only [List.cons_append, List.append_assoc, List.singleton_append]
  exact parseStr_escString s rest

theorem parseArray_cons_space (fuel : Nat) (l : List Char) :
    parseArray fuel (' ' :: l) = parseArray fuel l := by
  unfold parseArray
  rw [skipWs_space]

/-- Skipping the newline and indentation ahead of an array element
exposes its string literal. -/
theorem skipWs_item (s : String) (X : List Char) :
    skipWs ('\n' :: (renderItem s ++ X)) =
      '"' :: (s.data.flatMap escChar ++ '"' :: X) := by
  rw [renderItem, renderString, escString]
  simp only [List.cons_append, List.append_assoc, List.singleton_append,
    List.nil_append]
  rw [skipWs_newline, skipWs_space, skipWs_space, skipWs_space, skipWs_space]
  exact @skipWs_not_ws '"' (by decide) _

/-- Skipping the newline and indentation ahead of an object member
exposes its key's string literal. -/
theorem skipWs_member (k : String) (v : List String) (X : List Char) :
    skipWs ('\n' :: (renderPair (k, v) ++ X)) =
      '"' :: (k.data.flatMap escChar ++ '"' :: ':' :: ' ' ::
        (renderArray v ++ X)) := by
  rw [renderPair, renderString, escString]
  simp only [List.cons_append, List.append_assoc, List.singleton_append,
    List.nil_append]
  rw [skipWs_newline, skipWs_space, skipWs_space]
  exact @skipWs_not_ws '"' (by decide) _

/-- The rendered continuation of a non-empty array parses back to the
remaining elements. -/
theorem parseArrayTail_render (items : List String) :
    ∀ fuel rest, items.length < fuel →
      parseArrayTail fuel
        (items.flatMap (fun t => ',' :: '\n' :: renderItem t) ++
          '\n' :: ' ' :: ' ' :: ']' :: rest) = some (items, rest) := by
  induction items with
  | nil =>
    intro fuel rest h
    obtain ⟨f, rfl⟩ : ∃ f, fuel = f + 1 := ⟨fuel - 1, by omega⟩
    simp only [List.flatMap_nil, List.nil_append]
    rw [parseArrayTail, skipWs_newline, skipWs_space, skipWs_space,
      @skipWs_not_ws ']' (by decide)]
    simp
  | cons s items ih =>
    intro fuel rest h
    obtain ⟨f, rfl⟩ : ∃ f, fuel = f + 1 := ⟨fuel - 1, by omega⟩
    simp only [List.flatMap_cons, List.cons_append, List.append_assoc]
    rw [parseArrayTail, @skipWs_not_ws ',' (by decide)]
    simp only
    rw [if_neg (by decide), if_pos trivial, skipWs_item, parseStr_escString]
    simp only
    rw [ih f rest (by simp only [List.length_cons] at h; omega)]
    rfl

/-- A rendered array parses back. -/
theorem parseArray_render (v : List String) (fuel : Nat) (rest : List Char)
    (h : v.length ≤ fuel) :
    parseArray fuel (renderArray v ++ rest) = some (v, rest) := by
  cases v with
  | nil =>
    rw [renderArray]
    simp only [List.cons_append, List.nil_append]
    unfold parseArray
    rw [@skipWs_not_ws '[' (by decide)]
    simp only
    rw [if_pos trivial, @skipWs_not_ws ']' (by decide)]
    simp
  | cons s items =>
    rw [renderArray]
    simp only [List.cons_append, List.append_assoc, List.nil_append]
    unfold parseArray
    rw [@skipWs_not_ws '[' (by decide)]
    simp only
    rw [if_pos trivial, skipWs_item]
    simp only
    rw [if_neg (by decide), parseStr_escString]
    simp only
    rw [parseArrayTail_render items fuel rest
      (by simp only [List.length_cons] at h; omega)]
    rfl

/-- A rendered member parses back, positioned at its key's quote. -/
theorem parsePair_keyfirst (k : String) (v : List String) (fuel : Nat)
    (rest : List Char) (h : v.length ≤ fuel) :
    parsePair fuel ('"' :: (k.data.flatMap escChar ++ '"' :: ':' :: ' ' ::
      (renderArray v ++ rest))) = some ((k, v), rest) := by
  unfold parsePair
  rw [@skipWs_not_ws '"' (by decide), parseStr_escString]
  simp only
  rw [@skipWs_not_ws ':' (by decide)]
  simp only
  rw [if_pos trivial, parseArray_cons_space, parseArray_render v fuel rest h]
  rfl

/-- A rendered member, preceded by the newline that separates it from
the previous member, parses back. -/
theorem parsePair_newline_member (k : String) (v : List String) (fuel : Nat)
    (rest : List Char) (h : v.length ≤ fuel) :
    parsePair fuel ('\n' :: (renderPair (k, v) ++ rest)) = some ((k, v), rest) := by
  unfold parsePair
  rw [skipWs_member, parseStr_escString]
  simp only
  rw [@skipWs_not_ws ':' (by decide)]
  simp only
  rw [if_pos trivial, parseArray_cons_space, parseArray_render v fuel rest h]
  rfl

/-- The rendered continuation of a non-empty object parses back to the
remaining members. -/
theorem parsePairsTail_render (pairs : List (String × List String)) :
    ∀ fuel rest,
      pairs.length + (pairs.map (fun kv => kv.2.length)).sum < fuel →
      parsePairsTail fuel
        (pairs.flatMap (fun t => ',' :: '\n' :: renderPair t) ++
          '\n' :: '\x7d' :: rest) = some (pairs, rest) := by
  induction pairs with
  | nil =>
    intro fuel rest h
    obtain ⟨f, rfl⟩ : ∃ f, fuel = f + 1 := ⟨fuel - 1, by omega⟩
    simp only [List.flatMap_nil, List.nil_append]
    rw [parsePairsTail, skipWs_newline, @skipWs_not_ws '\x7d' (by decide)]
    simp
  | cons kv pairs ih =>
    obtain ⟨k, v⟩ := kv
    intro fuel rest h
    obtain ⟨f, rfl⟩ : ∃ f, fuel = f + 1 := ⟨fuel - 1, by omega⟩
    simp only [List.length_cons, List.map_cons, List.sum_cons] at h
    simp only [List.flatMap_cons, List.cons_append, List.append_assoc]
    rw [parsePairsTail, @skipWs_not_ws ',' (by decide)]
    simp only
    rw [if_neg (by decide), if_pos trivial,
      parsePair_newline_member k v f _ (by omega)]
    simp only
    rw [ih f rest (by omega)]
    rfl

/-- A rendered object parses back. -/
theorem parseObj_dumps (d : List (String × List String)) (fuel : Nat)
    (rest : List Char)
    (h : d.length + (d.map (fun kv => kv.2.length)).sum ≤ fuel) :
    parseObj fuel (dumpsChars d ++ rest) = some (d, rest) := by
  cases d with
  | nil =>
    rw [dumpsChars]
    simp only [List.cons_append, List.nil_append]
    unfold parseObj
    rw [@skipWs_not_ws '\x7b' (by decide)]
    simp only
    rw [if_pos trivial, @skipWs_not_ws '\x7d' (by decide)]
    simp
  | cons kv pairs =>
    obtain ⟨k, v⟩ := kv
    simp only [List.length_cons, List.map_cons, List.sum_cons] at h
    rw [dumpsChars]
    simp only [List.cons_append, List.append_assoc, List.nil_append]
    unfold parseObj
    rw [@skipWs_not_ws '\x7b' (by decide)]
    simp only
    rw [if_pos trivial, skipWs_member]
    simp only
    rw [if_neg (by decide), parsePair_keyfirst k v fuel _ (by omega)]
    simp only
    rw [parsePairsTail_render pairs fuel rest (by omega)]
    rfl

theorem le_length_flatItems (items : List String) :
    items.length ≤
      (items.flatMap (fun t => ',' :: '\n' :: renderItem t)).length := by
  induction items with
  | nil => simp
  | cons s items ih =>
    simp only [List.flatMap_cons, List.length_append, List.length_cons]
    omega

theorem le_length_renderArray (v : List String) :
    v.length ≤ (renderArray v).length := by
  cases v with
  | nil => simp [renderArray]
  | cons s items =>
    have := le_length_flatItems items
    simp only [renderArray, List.length_cons, List.length_append]
    omega

theorem le_length_renderPair (kv : String × List String) :
    kv.2.length ≤ (renderPair kv).length := by
  have := le_length_renderArray kv.2
  simp only [renderPair, List.length_cons, List.length_append]
  omega

theorem le_length_flatPairs (pairs : List (String × List String)) :
    pairs.length + (pairs.map (fun kv => kv.2.length)).sum ≤
      (pairs.flatMap (fun t => ',' :: '\n' :: renderPair t)).length := by
  induction pairs with
  | nil => simp
  | cons kv pairs ih =>
    have := le_length_renderPair kv
    simp only [List.flatMap_cons, List.length_append, List.length_cons,
      List.map_cons, List.sum_cons]
    omega

theorem le_length_dumpsChars (d : List (String × List String)) :
    d.length + (d.map (fun kv => kv.2.length)).sum ≤ (dumpsChars d).length := by
  cases d with
  | nil => simp [dumpsChars]
  | cons kv pairs =>
    have h1 := le_length_renderPair kv
    have h2 := le_length_flatPairs pairs
    simp only [dumpsChars, List.length_cons, List.length_append,
      List.map_cons, List.sum_cons]
    omega

/-- Round trip of the Reporter: parsing the dumped JSON reconstructs the
mapping exactly, members in their original order. -/
theorem parseJson_dumps (d : List (String × List String)) :
    parseJson (dumps d) = some d := by
  have hobj := parseObj_dumps d ((dumpsChars d).length + 1) []
    (by have := le_length_dumpsChars d; omega)
  rw [List.append_nil] at hobj
  unfold parseJson
  have hdata : (dumps d).data = dumpsChars d := rfl
  rw [hdata, hobj]
  simp [skipWs]

/-! ### The claims -/

/-- C1: for every input text (including the empty string) and every
pattern set, `extract_data` returns a mapping whose key sequence is
exactly the pattern set's key sequence in its declared order (so every
key is present exactly once and no other key appears); each key is bound
to a `List String` by the type of the result — an empty list when the
pattern has no matches, never an absent key or a null.  The second
conjunct exhibits the empty-text case on the program's own pattern
table: all four keys present, all bound to `[]`. -/
theorem extract_data_keys :
    (∀ (content : String) (ps : List (String × Regex)),
      (extract_data content ps).map Prod.fst = ps.map Prod.fst) ∧
    extract_data "" patterns =
      [("emails", []), ("prices", []), ("dates", []), ("phones", [])] := by
  constructor
  · intro content ps
    simp [extract_data]
  · decide

/-- C2: `scrape_url` is a total function of the URL and the behaviour of
the external invocation — its plain (non-exceptional) return type is the
embedding of "never propagates an exception".  When the invocation
raises, it prints exactly one diagnostic naming the URL and the error
and returns the empty string; when the invocation completes, it prints
nothing and returns the captured stdout. -/
theorem scrape_url_spec :
    (∀ (url msg : String),
      scrape_url url (Except.error msg) =
        (["Error scraping " ++ url ++ ": " ++ msg], "")) ∧
    (∀ (url : String) (res : CompletedProcess),
      scrape_url url (Except.ok res) = ([], res.stdout)) :=
  ⟨fun _ _ => rfl, fun _ _ => rfl⟩

/-- C3: with no positional URL argument (`sys.argv` shorter than 2),
`main` prints exactly the usage message to standard output and exits
with status 1 without running the pipeline; with a URL argument present
it runs the pipeline and exits with status 0, whatever the fetch
outcome (hence regardless of empty content or zero matches). -/
theorem main_cli_spec :
    (∀ run : RunOutcome,
      main [] run =
        { exitCode := 1
          stdoutLines := ["Usage: python3 scrape_advanced.py <url>"]
          stderrLines := []
          fetchRan := false }) ∧
    (∀ (prog : String) (run : RunOutcome),
      main [prog] run =
        { exitCode := 1
          stdoutLines := ["Usage: python3 scrape_advanced.py <url>"]
          stderrLines := []
          fetchRan := false }) ∧
    (∀ (prog url : String) (args : List String) (run : RunOutcome),
      (main (prog :: url :: args) run).exitCode = 0 ∧
      (main (prog :: url :: args) run).fetchRan = true) :=
  ⟨fun _ => rfl, fun _ _ => rfl, fun _ _ _ _ => ⟨rfl, rfl⟩⟩

/-- C4: on `"Contact: a@b.com or x.y@z.org"` the program's pattern table
extracts exactly the two e-mail addresses and nothing else; the emails
pattern is `emailsRe`, the embedding of `[\w\.-]+@[\w\.-]+\.\w+` (word
characters, dots and hyphens, `@`, word characters/dots/hyphens, a dot,
one or more word characters). -/
theorem extract_emails_scenario :
    extract_data "Contact: a@b.com or x.y@z.org" patterns =
      [("emails", ["a@b.com", "x.y@z.org"]), ("prices", []),
        ("dates", []), ("phones", [])] := by
  decide

/-- C5: on `"Total: $19.99 and $5"` the prices pattern (`pricesRe`, the
embedding of `\$\d+(?:\.\d{2})?`: a dollar sign, digits, optionally a
decimal point with exactly two digits) finds `$19.99` and `$5`; a lone
decimal point or a single trailing digit is not part of a match. -/
theorem extract_prices_scenario :
    findall pricesRe "Total: $19.99 and $5" = ["$19.99", "$5"] ∧
    findall pricesRe "$19.9" = ["$19"] ∧
    findall pricesRe "$19." = ["$19"] := by
  decide

/-- C6: the dates pattern (`datesRe`, the embedding of
`\d{1,2}/\d{1,2}/\d{4}`) performs no calendar validation — the
impossible date `13/45/9999` matches in full — and finds both dates of
the spec's scenario. -/
theorem extract_dates_scenario :
    findall datesRe "13/45/9999" = ["13/45/9999"] ∧
    findall datesRe "Meeting on 3/4/2024 and 12/31/1999" =
      ["3/4/2024", "12/31/1999"] := by
  decide

/-- C7: `extract_data` is deterministic in its two arguments: two
evaluations on the same (text, patterns) pair are equal as values (same
keys, same lists, same order).  In this embedding `extract_data` is a
pure function — there is no hidden state it could read — so the two
runs are definitionally the same value. -/
theorem extract_data_deterministic (content : String)
    (ps : List (String × Regex)) :
    extract_data content ps = extract_data content ps := rfl

/-- C8: round trip of the Reporter: for every extraction result,
parsing the JSON text produced by `json.dumps(·, indent=2)` (embedded as
`dumps`) reconstructs the mapping exactly — same keys bound to the same
lists, in the same member order, so the serialized key order is the
declared order of the mapping being dumped. -/
theorem reporter_roundtrip (d : List (String × List String)) :
    parseJson (dumps d) = some d :=
  parseJson_dumps d

/-- C9: every match list produced by `findall` decomposes the input
text: the matches occur in the text in exactly the order listed, each a
contiguous substring, pairwise non-overlapping (duplicate occurrences
remain separate entries), in the scan's left-to-right order. -/
theorem findall_matchesSeq (r : Regex) (content : String) :
    MatchesSeq ((findall r content).map String.data) content.data := by
  have h := findallAux_matchesSeq (content.data.length + 1) r content.data
  have hcomp : (String.data ∘ fun cs => (⟨cs⟩ : String)) = id := rfl
  simpa [findall, List.map_map, hcomp] using h

/-- C10: when the fetch faults, the diagnostic goes to the same stream
as the JSON report — standard output — so stdout carries the diagnostic
line followed by the JSON document (of the empty-content extraction),
and standard error stays empty. -/
theorem fault_diag_on_stdout (prog url msg : String) (args : List String) :
    (main (prog :: url :: args) (Except.error msg)).stdoutLines =
      ["Error scraping " ++ url ++ ": " ++ msg,
        dumps (extract_data "" patterns)] ∧
    (main (prog :: url :: args) (Except.error msg)).stderrLines = [] :=
  ⟨rfl, rfl⟩

end Scrape
